import Mathlib

-- Verification of the LAMBDA-SPLITTER repository (three Python sources:
-- src/main.py, src/split.py, src/splitter.py).  File contents are modelled
-- as byte lists (List Nat), file metadata as a FileEntry record, and each
-- script's packing / splitting / copying loop as an explicit Lean function.

set_option linter.unusedVariables false

/-- A file descriptor as enumerated by the directory walk: absolute path,
relative path (as a list of path components under the source root), and
byte size.  Corresponds to the tuples `(abs_path, rel_path, size)` built by
`list_files_with_size` in `main.py` and to the walk in the other scripts. -/
structure FileEntry where
  absPath : String
  relPath : List String
  size : Nat
deriving DecidableEq

/-- Total size of one chunk (bin) of files, i.e. the value tracked by
`current_sum` in `main.py`'s `split_files_by_size`. -/
def chunkSize (c : List FileEntry) : Nat := (c.map FileEntry.size).sum

/-- State of the greedy packing loop in `main.py`'s `split_files_by_size`:
the sealed chunks, the open chunk, and its running size. -/
structure PackState where
  chunks : List (List FileEntry)
  current : List FileEntry
  currentSum : Nat
deriving DecidableEq

/-- One iteration of the loop body of `split_files_by_size` (main.py lines
52-60): if the current chunk is non-empty and adding the file would exceed
`max_size`, seal the current chunk and start a new one; then append the
file to the current chunk and add its size to the running sum. -/
def packStep (maxSize : Nat) (st : PackState) (f : FileEntry) : PackState :=
  if st.current ≠ [] ∧ maxSize < st.currentSum + f.size then
    ⟨st.chunks ++ [st.current], [f], f.size⟩
  else
    ⟨st.chunks, st.current ++ [f], st.currentSum + f.size⟩

/-- `split_files_by_size` from `main.py` (lines 42-66): fold the loop body
over the file list starting from an empty state, then seal the last chunk
if it is non-empty. -/
def split_files_by_size (files : List FileEntry) (maxSize : Nat) : List (List FileEntry) :=
  let st := files.foldl (packStep maxSize) ⟨[], [], 0⟩
  if st.current ≠ [] then st.chunks ++ [st.current] else st.chunks

/-- Output units materialized by `main.py`'s main loop (lines 110-122):
chunk number `idx` (1-based) becomes folder `python{idx}` and
`copy_files_to_folder` copies every member to `python{idx}/{rel_path}`,
preserving the relative path.  Each output entry is the pair
(unit folder name, path of the copy relative to that folder). -/
def mainOutputsAux (chunks : List (List FileEntry)) (idx : Nat) : List (String × List String) :=
  match chunks with
  | [] => []
  | c :: rest => (c.map fun f => ("python" ++ toString idx, f.relPath)) ++
      mainOutputsAux rest (idx + 1)

/-- The output units of `main.py` for a given catalog: pack, then
materialize each chunk into its `python{n}` folder. -/
def mainOutputs (files : List FileEntry) (maxSize : Nat) : List (String × List String) :=
  mainOutputsAux (split_files_by_size files maxSize) 1

/-- `main.py`'s `main()` (lines 92-127): if no files are found it exits
early producing nothing; otherwise it packs and materializes the chunks. -/
def mainRun (files : List FileEntry) (maxSize : Nat) : List (String × List String) :=
  if files.length = 0 then [] else mainOutputs files maxSize

-- ---------------------------------------------------------------------
-- split.py
-- ---------------------------------------------------------------------

/-- Append an element to the last inner list (the "current folder"), used
to model `shutil.copy2(file_path, current_folder)` in `split.py`. -/
def appendToLast {α : Type} (l : List (List α)) (a : α) : List (List α) :=
  match l with
  | [] => [[a]]
  | [c] => [c ++ [a]]
  | c :: d :: rest => c :: appendToLast (d :: rest) a

/-- The basename of a relative path: the last path component.  `split.py`
copies with `shutil.copy2(file_path, current_folder)`, which places the
file under its basename directly inside the part folder. -/
def baseName (p : List String) : String := p.getLastD ""

/-- Destination path of a file inside the current part folder under
`split.py`'s copy: just the basename, the subdirectory structure of the
relative path is not reproduced. -/
def copy2Dest (f : FileEntry) : List String := [baseName f.relPath]

/-- State of `split.py`'s loop: the current part number, the running size
of the current part, and the contents of every part folder created so far
(each folder is a list of destination paths relative to that folder). -/
structure SplitPyState where
  partNum : Nat
  currentSize : Nat
  folders : List (List (List String))
deriving DecidableEq

/-- One iteration of `split.py`'s loop body (lines 43-54): if adding the
file would exceed the limit, start a new (empty) part folder and reset the
running size — without checking whether the current folder is empty; then
copy the file into the current folder and add its size. -/
def splitPyStep (maxSize : Nat) (st : SplitPyState) (f : FileEntry) : SplitPyState :=
  if maxSize < st.currentSize + f.size then
    ⟨st.partNum + 1, f.size, appendToLast (st.folders ++ [[]]) (copy2Dest f)⟩
  else
    ⟨st.partNum, st.currentSize + f.size, appendToLast st.folders (copy2Dest f)⟩

/-- The whole `split.py` run (lines 22-58): the `part_1` folder is created
unconditionally before the walk, then the loop body is folded over the
enumerated files. -/
def splitPyRun (files : List FileEntry) (maxSize : Nat) : SplitPyState :=
  files.foldl (splitPyStep maxSize) ⟨1, 0, [[]]⟩

/-- Flatten the part folders of a `split.py` run into (part number,
destination path) pairs, part numbers starting at 1. -/
def splitPyOutputsAux (folders : List (List (List String))) (idx : Nat) :
    List (Nat × List String) :=
  match folders with
  | [] => []
  | c :: rest => (c.map fun d => (idx, d)) ++ splitPyOutputsAux rest (idx + 1)

/-- All (part number, destination path) pairs written by a `split.py` run. -/
def splitPyOutputs (files : List FileEntry) (maxSize : Nat) : List (Nat × List String) :=
  splitPyOutputsAux (splitPyRun files maxSize).folders 1

-- ---------------------------------------------------------------------
-- splitter.py
-- ---------------------------------------------------------------------

/-- Error kinds raised by `LambdaLayerSplitter._validate_inputs`
(splitter.py lines 33-39): `FileNotFoundError`, `NotADirectoryError`, and
the `ValueError` for a non-positive `max_part_size`. -/
inductive SplitterError where
  | sourceNotFound
  | sourceNotADirectory
  | invalidCapacity
deriving DecidableEq

/-- `_validate_inputs` (splitter.py lines 33-39): checks, in order, that
the source exists, that it is a directory, and that `max_part_size` is
positive.  It does not inspect `buffer_size`. -/
def validate_inputs (sourceExists sourceIsDir : Bool) (maxPartSize : Int) :
    Except SplitterError Unit :=
  if sourceExists = false then Except.error SplitterError.sourceNotFound
  else if sourceIsDir = false then Except.error SplitterError.sourceNotADirectory
  else if maxPartSize ≤ 0 then Except.error SplitterError.invalidCapacity
  else Except.ok ()

/-- The `LambdaLayerSplitter` constructor (splitter.py lines 17-31): it
stores `max_part_size` and `buffer_size` and then calls
`_validate_inputs`, which never looks at `buffer_size`. -/
def splitterCtor (sourceExists sourceIsDir : Bool) (maxPartSize : Int) (bufferSize : Nat) :
    Except SplitterError Unit :=
  validate_inputs sourceExists sourceIsDir maxPartSize

/-- The inner read loop of `_write_chunk` (splitter.py lines 96-108): while
fewer than `cap` bytes have been written, request
`min(buffer_size, cap - bytes_written)` bytes; an empty read ends the
part.  Returns the bytes written for this part and the remaining source.
`bw` is `bytes_written`.  The loop runs at most `cap - bw` times because
every non-final iteration reads at least one byte, so structural fuel of
at least `cap - bw` reproduces the `while` loop exactly. -/
def writeChunkAux (fuel cap buf : Nat) (src : List Nat) (bw : Nat) : List Nat × List Nat :=
  match fuel with
  | 0 => ([], src)
  | fuel + 1 =>
    if bw < cap then
      match src.take (min buf (cap - bw)) with
      | [] => ([], src)
      | a :: tl =>
        let rest := writeChunkAux fuel cap buf (src.drop (min buf (cap - bw)))
          (bw + (a :: tl).length)
        ((a :: tl) ++ rest.1, rest.2)
    else ([], src)

/-- `_write_chunk` (splitter.py lines 96-108): one part's worth of bytes
read from the stream, together with the rest of the stream. -/
def write_chunk (cap buf : Nat) (src : List Nat) : List Nat × List Nat :=
  writeChunkAux cap cap buf src 0

/-- The part-emitting loop of `_split_and_zip_file` (splitter.py lines
67-94), with explicit fuel bounding the number of iterations: each
iteration writes one zip part with `_write_chunk` and stops once a part
came out shorter than `max_part_size`.  Parts are numbered from
`partNum`. -/
def splitLoopFuel (fuel cap buf : Nat) (src : List Nat) (partNum : Nat) :
    List (Nat × List Nat) :=
  match fuel with
  | 0 => []
  | fuel + 1 =>
    let pr := write_chunk cap buf src
    if pr.1.length < cap then [(partNum, pr.1)]
    else (partNum, pr.1) :: splitLoopFuel fuel cap buf pr.2 (partNum + 1)

/-- `_split_and_zip_file` (splitter.py lines 67-94): the emitted (part
index, part bytes) sequence for one source file, starting at part 1.  Fuel
`src.length + 1` is enough for every positive capacity, since every
iteration except the last consumes exactly `cap` bytes. -/
def split_and_zip_file (cap buf : Nat) (src : List Nat) : List (Nat × List Nat) :=
  splitLoopFuel (src.length + 1) cap buf src 1

/-- An output of `process_directory`: either a verbatim whole-file copy or
one zip part of a split file. -/
inductive SplitterOutput where
  | whole (relPath : List String) (content : List Nat)
  | part (relPath : List String) (idx : Nat) (content : List Nat)

/-- `_process_file` (splitter.py lines 49-60): a file whose size is at most
`max_part_size` is copied whole; a strictly larger file is split. -/
def process_file (cap buf : Nat) (rel : List String) (content : List Nat) :
    List SplitterOutput :=
  if content.length ≤ cap then [SplitterOutput.whole rel content]
  else (split_and_zip_file cap buf content).map fun p => SplitterOutput.part rel p.1 p.2

/-- `process_directory` (splitter.py lines 41-47): process every file of
the catalog, in order. -/
def process_directory (cap buf : Nat) (files : List (List String × List Nat)) :
    List SplitterOutput :=
  (files.map fun f => process_file cap buf f.1 f.2).flatten

/-- A full `splitter.py` run (lines 110-121): construct the
`LambdaLayerSplitter` (which validates its inputs) and, on success,
process the directory.  A validation failure aborts before any output is
produced. -/
def lambdaLayerSplitterRun (sourceExists sourceIsDir : Bool) (maxPartSize : Int)
    (bufferSize : Nat) (files : List (List String × List Nat)) :
    Except SplitterError (List SplitterOutput) :=
  match splitterCtor sourceExists sourceIsDir maxPartSize bufferSize with
  | Except.error e => Except.error e
  | Except.ok _ => Except.ok (process_directory maxPartSize.toNat bufferSize files)

/-- A chunk produced by the packer is good when its total size is within
the limit or it is a single file that alone exceeds the limit. -/
def GoodChunk (maxSize : Nat) (c : List FileEntry) : Prop :=
  chunkSize c ≤ maxSize ∨ ∃ f, c = [f] ∧ maxSize < f.size

/-- Invariant of the packing loop of `split_files_by_size`: all sealed
chunks are good and non-empty, the running sum tracks the open chunk, and
the open chunk is good. -/
def PackInv (maxSize : Nat) (st : PackState) : Prop :=
  (∀ c ∈ st.chunks, GoodChunk maxSize c ∧ c ≠ []) ∧
  st.currentSum = chunkSize st.current ∧
  GoodChunk maxSize st.current

-- ---------------------------------------------------------------------
-- Helper lemmas about the splitter
-- ---------------------------------------------------------------------

/-- With a positive buffer, one run of the `_write_chunk` loop reads
exactly `min (cap - bw) src.length` bytes: it returns the next
`cap - bw` bytes of the stream and leaves the rest. -/
theorem writeChunkAux_eq (cap buf : Nat) (hbuf : 0 < buf) :
    ∀ (fuel : Nat) (src : List Nat) (bw : Nat), cap - bw ≤ fuel →
      writeChunkAux fuel cap buf src bw = (src.take (cap - bw), src.drop (cap - bw)) := by
  intro fuel
  induction fuel with
  | zero =>
    intro src bw hn
    have h0 : cap - bw = 0 := by omega
    simp [writeChunkAux, h0]
  | succ fuel ih =>
    intro src bw hn
    unfold writeChunkAux
    by_cases h : bw < cap
    · simp only [if_pos h]
      have hbtr : 1 ≤ min buf (cap - bw) := by omega
      split
      next heq =>
        rcases List.take_eq_nil_iff.mp heq with h1 | h1
        · omega
        · simp [h1]
      next a tl heq =>
        have hlen : (a :: tl).length = min (min buf (cap - bw)) src.length := by
          rw [← heq, List.length_take]
        have hrec := ih (src.drop (min buf (cap - bw))) (bw + (a :: tl).length) (by
          have : 1 ≤ (a :: tl).length := by simp
          omega)
        rw [hrec]
        dsimp only
        rw [Prod.mk.injEq]
        by_cases hsl : src.length ≤ min buf (cap - bw)
        · have htk : src.take (min buf (cap - bw)) = src := List.take_of_length_le hsl
          have hdr : src.drop (min buf (cap - bw)) = [] := List.drop_eq_nil_of_le hsl
          have hsrc : src = a :: tl := by rw [← htk, heq]
          have hlen2 : (a :: tl).length = src.length := by rw [hlen]; omega
          have hsl2 : src.length ≤ cap - bw := by omega
          refine ⟨?_, ?_⟩
          · rw [hdr]
            simp only [List.take_nil, List.append_nil]
            rw [List.take_of_length_le hsl2, hsrc]
          · rw [hdr]
            simp [List.drop_eq_nil_of_le hsl2]
        · have hbtrlt : min buf (cap - bw) < src.length := by omega
          have hlen2 : (a :: tl).length = min buf (cap - bw) := by rw [hlen]; omega
          have hble : min buf (cap - bw) ≤ cap - bw := by omega
          refine ⟨?_, ?_⟩
          · rw [hlen2, ← heq]
            have harith : cap - (bw + min buf (cap - bw)) = cap - bw - min buf (cap - bw) := by
              omega
            rw [harith]
            have htadd := List.take_add src (min buf (cap - bw)) (cap - bw - min buf (cap - bw))
            have harith2 : min buf (cap - bw) + (cap - bw - min buf (cap - bw)) = cap - bw := by
              omega
            rw [harith2] at htadd
            exact htadd.symm
          · rw [hlen2]
            have hdd := List.drop_drop (cap - (bw + min buf (cap - bw))) (min buf (cap - bw)) src
            rw [hdd]
            have harith : min buf (cap - bw) + (cap - (bw + min buf (cap - bw))) = cap - bw := by
              omega
            rw [harith]
    · have h0 : cap - bw = 0 := by omega
      simp [if_neg h, h0]

/-- With a positive buffer, `_write_chunk` emits the next `cap` bytes of
the stream and leaves the remainder. -/
theorem write_chunk_eq (cap buf : Nat) (src : List Nat) (hbuf : 0 < buf) :
    write_chunk cap buf src = (src.take cap, src.drop cap) := by
  have := writeChunkAux_eq cap buf hbuf cap src 0 (by omega)
  simpa [write_chunk] using this

/-- The part loop of `_split_and_zip_file` never emits an empty list of
parts: the first iteration always produces a part. -/
theorem splitLoopFuel_ne_nil (fuel cap buf : Nat) (src : List Nat) (n : Nat)
    (hfuel : fuel ≠ 0) : splitLoopFuel fuel cap buf src n ≠ [] := by
  match fuel with
  | 0 => exact absurd rfl hfuel
  | fuel + 1 =>
    by_cases hc : (write_chunk cap buf src).1.length < cap
    · simp [splitLoopFuel, hc]
    · simp [splitLoopFuel, hc]

/-- The emitted part sequence of `_split_and_zip_file` is non-empty. -/
theorem split_and_zip_file_ne_nil (cap buf : Nat) (src : List Nat) :
    split_and_zip_file cap buf src ≠ [] :=
  splitLoopFuel_ne_nil (src.length + 1) cap buf src 1 (Nat.succ_ne_zero _)

/-- Full description of the part loop for positive capacity and buffer and
sufficient fuel: the parts concatenate back to the source, their lengths
are `⌊len / cap⌋` chunks of exactly `cap` bytes followed by a final part of
`len % cap` bytes, and the part indices count up contiguously from `n`. -/
theorem splitLoopFuel_spec (cap buf : Nat) (hcap : 0 < cap) (hbuf : 0 < buf) :
    ∀ (fuel : Nat) (src : List Nat) (n : Nat), src.length < fuel * cap →
      ((splitLoopFuel fuel cap buf src n).map Prod.snd).flatten = src ∧
      (splitLoopFuel fuel cap buf src n).map (fun p => p.2.length) =
        List.replicate (src.length / cap) cap ++ [src.length % cap] ∧
      (splitLoopFuel fuel cap buf src n).map Prod.fst =
        List.range' n (src.length / cap + 1) := by
  intro fuel
  induction fuel with
  | zero =>
    intro src n h
    simp at h
  | succ fuel ih =>
    intro src n h
    unfold splitLoopFuel
    rw [write_chunk_eq cap buf src hbuf]
    simp only [List.length_take]
    by_cases hlt : src.length < cap
    · have hmin : min cap src.length = src.length := by omega
      rw [hmin, if_pos hlt]
      have htk : src.take cap = src := List.take_of_length_le (by omega)
      have hdiv : src.length / cap = 0 := Nat.div_eq_of_lt hlt
      have hmod : src.length % cap = src.length := Nat.mod_eq_of_lt hlt
      refine ⟨by simp [htk], by simp [hdiv, hmod, htk], ?_⟩
      rw [hdiv]
      rw [List.range'_succ n 0 1]
      simp
    · have hle : cap ≤ src.length := by omega
      have hmin : min cap src.length = cap := by omega
      rw [hmin, if_neg (by omega)]
      have hdroplen : (src.drop cap).length = src.length - cap := List.length_drop cap src
      have hbound : (src.drop cap).length < fuel * cap := by
        rw [hdroplen]
        have hmul : (fuel + 1) * cap = fuel * cap + cap := Nat.succ_mul fuel cap
        rw [hmul] at h
        omega
      obtain ⟨ih1, ih2, ih3⟩ := ih (src.drop cap) (n + 1) hbound
      have hdiv : src.length / cap = (src.length - cap) / cap + 1 :=
        Nat.div_eq_sub_div hcap hle
      have hmod : src.length % cap = (src.length - cap) % cap := Nat.mod_eq_sub_mod hle
      refine ⟨?_, ?_, ?_⟩
      · simp only [List.map_cons, List.flatten_cons, ih1]
        exact List.take_append_drop cap src
      · simp only [List.map_cons, ih2, hdroplen, List.length_take, hmin]
        rw [hdiv, hmod, List.replicate_succ cap ((src.length - cap) / cap)]
        simp
      · simp only [List.map_cons, ih3, hdroplen]
        rw [hdiv, List.range'_succ n ((src.length - cap) / cap + 1) 1]

/-- The fuel `src.length + 1` used by `split_and_zip_file` is sufficient
whenever the capacity is positive. -/
theorem fuel_sufficient (cap : Nat) (src : List Nat) (hcap : 0 < cap) :
    src.length < (src.length + 1) * cap := by
  cases cap with
  | zero => omega
  | succ c =>
    have : (src.length + 1) * (c + 1) = (src.length + 1) * c + (src.length + 1) := by ring
    omega

/-- Full description of `_split_and_zip_file` for positive capacity and
buffer: round-trip, part lengths, and 1-based contiguous part indices. -/
theorem split_and_zip_file_spec (cap buf : Nat) (src : List Nat)
    (hcap : 0 < cap) (hbuf : 0 < buf) :
    ((split_and_zip_file cap buf src).map Prod.snd).flatten = src ∧
    (split_and_zip_file cap buf src).map (fun p => p.2.length) =
      List.replicate (src.length / cap) cap ++ [src.length % cap] ∧
    (split_and_zip_file cap buf src).map Prod.fst =
      List.range' 1 (src.length / cap + 1) :=
  splitLoopFuel_spec cap buf hcap hbuf (src.length + 1) src 1
    (fuel_sufficient cap src hcap)

-- ---------------------------------------------------------------------
-- Helper lemmas about the packer and split.py
-- ---------------------------------------------------------------------

/-- The total size of a chunk grows by the appended file's size. -/
theorem chunkSize_append (c : List FileEntry) (f : FileEntry) :
    chunkSize (c ++ [f]) = chunkSize c + f.size := by
  simp [chunkSize]

/-- One packing step preserves the loop invariant and appends exactly the
incoming file to the multiset of processed files. -/
theorem packStep_preserves (maxSize : Nat) (st : PackState) (f : FileEntry)
    (h : PackInv maxSize st) :
    PackInv maxSize (packStep maxSize st f) ∧
    (packStep maxSize st f).chunks.flatten ++ (packStep maxSize st f).current =
      (st.chunks.flatten ++ st.current) ++ [f] := by
  obtain ⟨hchunks, hsum, hcur⟩ := h
  unfold packStep
  by_cases hc : st.current ≠ [] ∧ maxSize < st.currentSum + f.size
  · rw [if_pos hc]
    refine ⟨⟨?_, ?_, ?_⟩, ?_⟩
    · intro c hmem
      rcases List.mem_append.mp hmem with hmem | hmem
      · exact hchunks c hmem
      · rw [List.mem_singleton.mp hmem]
        exact ⟨hcur, hc.1⟩
    · simp [chunkSize]
    · by_cases hf : f.size ≤ maxSize
      · exact Or.inl (by simp [chunkSize, hf])
      · exact Or.inr ⟨f, rfl, by omega⟩
    · simp
  · rw [if_neg hc]
    have hor : st.current = [] ∨ st.currentSum + f.size ≤ maxSize := by
      by_cases he : st.current = []
      · exact Or.inl he
      · right
        by_contra hgt
        exact hc ⟨he, by omega⟩
    refine ⟨⟨hchunks, ?_, ?_⟩, ?_⟩
    · rw [chunkSize_append, hsum]
    · show GoodChunk maxSize (st.current ++ [f])
      rcases hor with he | hle
      · rw [he]
        simp only [List.nil_append]
        by_cases hf : f.size ≤ maxSize
        · exact Or.inl (by simp [chunkSize, hf])
        · exact Or.inr ⟨f, rfl, by omega⟩
      · left
        rw [chunkSize_append, ← hsum]
        exact hle
    · simp

/-- Folding the packing loop over a file list preserves the invariant and
processes exactly the input files, in order. -/
theorem foldl_packStep (maxSize : Nat) :
    ∀ (files : List FileEntry) (st : PackState), PackInv maxSize st →
      PackInv maxSize (files.foldl (packStep maxSize) st) ∧
      (files.foldl (packStep maxSize) st).chunks.flatten ++
          (files.foldl (packStep maxSize) st).current =
        (st.chunks.flatten ++ st.current) ++ files := by
  intro files
  induction files with
  | nil =>
    intro st h
    exact ⟨h, by simp⟩
  | cons f fs ih =>
    intro st h
    obtain ⟨hinv, heq⟩ := packStep_preserves maxSize st f h
    obtain ⟨hinv2, heq2⟩ := ih (packStep maxSize st f) hinv
    refine ⟨hinv2, ?_⟩
    rw [List.foldl_cons, heq2, heq]
    simp

/-- The chunks returned by `split_files_by_size` are all good and
non-empty, and they concatenate back to the input file list. -/
theorem split_files_by_size_spec (files : List FileEntry) (maxSize : Nat) :
    (∀ c ∈ split_files_by_size files maxSize, GoodChunk maxSize c ∧ c ≠ []) ∧
    (split_files_by_size files maxSize).flatten = files := by
  have hinit : PackInv maxSize ⟨[], [], 0⟩ := by
    refine ⟨by simp, by simp [chunkSize], Or.inl (by simp [chunkSize])⟩
  obtain ⟨⟨hchunks, hsum, hcur⟩, heq⟩ := foldl_packStep maxSize files ⟨[], [], 0⟩ hinit
  simp only [List.flatten_nil, List.nil_append] at heq
  unfold split_files_by_size
  by_cases hc : (files.foldl (packStep maxSize) ⟨[], [], 0⟩).current ≠ []
  · rw [if_pos hc]
    refine ⟨?_, ?_⟩
    · intro c hmem
      rcases List.mem_append.mp hmem with hmem | hmem
      · exact hchunks c hmem
      · rw [List.mem_singleton.mp hmem]
        exact ⟨hcur, hc⟩
    · rw [List.flatten_append]
      simpa using heq
  · rw [if_neg hc]
    push_neg at hc
    rw [hc] at heq
    simp only [List.append_nil] at heq
    exact ⟨fun c hmem => hchunks c hmem, heq⟩

/-- Appending to the last folder of a non-empty folder list leaves the
earlier folders untouched. -/
theorem appendToLast_concat {α : Type} :
    ∀ (l : List (List α)) (c : List α) (a : α),
      appendToLast (l ++ [c]) a = l ++ [c ++ [a]] := by
  intro l
  induction l with
  | nil => intro c a; rfl
  | cons d rest ih =>
    intro c a
    cases rest with
    | nil => rfl
    | cons e rest2 =>
      show d :: appendToLast ((e :: rest2) ++ [c]) a = d :: ((e :: rest2) ++ [c ++ [a]])
      rw [ih c a]

/-- The relative paths recorded by `main.py`'s materialization are exactly
the relative paths of the chunk members, in order. -/
theorem mainOutputsAux_snd (chunks : List (List FileEntry)) :
    ∀ idx : Nat, (mainOutputsAux chunks idx).map Prod.snd =
      chunks.flatten.map FileEntry.relPath := by
  induction chunks with
  | nil => intro idx; rfl
  | cons c rest ih =>
    intro idx
    simp only [mainOutputsAux, List.map_append, List.map_map, List.flatten_cons, ih]
    rfl

/-- Every part emitted by `_split_and_zip_file` holds at most `cap` bytes
(positive capacity and buffer). -/
theorem split_parts_le_cap (cap buf : Nat) (src : List Nat)
    (hcap : 0 < cap) (hbuf : 0 < buf) :
    ∀ p ∈ split_and_zip_file cap buf src, p.2.length ≤ cap := by
  obtain ⟨h1, h2, h3⟩ := split_and_zip_file_spec cap buf src hcap hbuf
  intro p hp
  have hmem : p.2.length ∈ (split_and_zip_file cap buf src).map (fun p => p.2.length) :=
    List.mem_map_of_mem _ hp
  rw [h2] at hmem
  rcases List.mem_append.mp hmem with hmem | hmem
  · exact Nat.le_of_eq (List.eq_of_mem_replicate hmem)
  · rw [List.mem_singleton.mp hmem]
    exact Nat.le_of_lt (Nat.mod_lt _ hcap)

-- ---------------------------------------------------------------------
-- Claim theorems
-- ---------------------------------------------------------------------

/-- C1: for every input file sequence and every capacity > 0, every chunk
produced by `split_files_by_size` either has total size at most the
capacity or is exactly one file whose own size exceeds the capacity; the
chunks concatenate back to the input (no file is rejected), and every
oversized file ends up alone in its own chunk. -/
theorem split_files_by_size_bins_bounded (files : List FileEntry) (maxSize : Nat)
    (hcap : 0 < maxSize) :
    (∀ c ∈ split_files_by_size files maxSize,
      chunkSize c ≤ maxSize ∨ ∃ f, c = [f] ∧ maxSize < f.size) ∧
    (split_files_by_size files maxSize).flatten = files ∧
    (∀ f ∈ files, maxSize < f.size → [f] ∈ split_files_by_size files maxSize) := by
  obtain ⟨hgood, hflat⟩ := split_files_by_size_spec files maxSize
  refine ⟨fun c hc => (hgood c hc).1, hflat, ?_⟩
  intro f hf hsize
  rw [← hflat] at hf
  obtain ⟨c, hcmem, hfc⟩ := List.mem_flatten.mp hf
  rcases (hgood c hcmem).1 with hle | ⟨g, hg, hgsize⟩
  · exfalso
    have hfs : f.size ∈ c.map FileEntry.size := List.mem_map_of_mem FileEntry.size hfc
    have : f.size ≤ chunkSize c :=
      List.single_le_sum (fun x _ => Nat.zero_le x) _ hfs
    omega
  · have hfg : f = g := List.mem_singleton.mp (hg ▸ hfc)
    rw [hfg, ← hg]
    exact hcmem

/-- Witness for C1: a single 7-byte file at capacity 3 is placed alone in
an oversized singleton bin. -/
theorem split_files_by_size_bins_bounded_witness :
    0 < 3 ∧
    ((∀ c ∈ split_files_by_size [⟨"/lambda-layer/a", ["a"], 7⟩] 3,
        chunkSize c ≤ 3 ∨ ∃ f, c = [f] ∧ 3 < f.size) ∧
      (split_files_by_size [⟨"/lambda-layer/a", ["a"], 7⟩] 3).flatten =
        [⟨"/lambda-layer/a", ["a"], 7⟩] ∧
      (∀ f ∈ [(⟨"/lambda-layer/a", ["a"], 7⟩ : FileEntry)], 3 < f.size →
        [f] ∈ split_files_by_size [⟨"/lambda-layer/a", ["a"], 7⟩] 3)) :=
  ⟨by decide, split_files_by_size_bins_bounded [⟨"/lambda-layer/a", ["a"], 7⟩] 3 (by decide)⟩

/-- C2: for positive capacity and buffer and a file strictly larger than
the capacity, the parts emitted by `_split_and_zip_file` concatenate back
to the original bytes, each part holds at most `cap` bytes, and the part
lengths sum to the file size exactly. -/
theorem split_and_zip_roundtrip (cap buf : Nat) (src : List Nat)
    (hcap : 0 < cap) (hbuf : 0 < buf) (hsize : cap < src.length) :
    ((split_and_zip_file cap buf src).map Prod.snd).flatten = src ∧
    (∀ p ∈ split_and_zip_file cap buf src, p.2.length ≤ cap) ∧
    ((split_and_zip_file cap buf src).map fun p => p.2.length).sum = src.length := by
  obtain ⟨h1, h2, h3⟩ := split_and_zip_file_spec cap buf src hcap hbuf
  refine ⟨h1, split_parts_le_cap cap buf src hcap hbuf, ?_⟩
  have hmm : (split_and_zip_file cap buf src).map (fun p => p.2.length) =
      ((split_and_zip_file cap buf src).map Prod.snd).map List.length := by
    simp [List.map_map, Function.comp]
  rw [hmm, ← List.length_flatten, h1]

/-- Witness for C2: a 5-byte file at capacity 2 with buffer 1 splits into
parts that concatenate back to the source. -/
theorem split_and_zip_roundtrip_witness :
    0 < 2 ∧ 0 < 1 ∧ 2 < [1, 2, 3, 4, 5].length ∧
    (((split_and_zip_file 2 1 [1, 2, 3, 4, 5]).map Prod.snd).flatten = [1, 2, 3, 4, 5] ∧
      (∀ p ∈ split_and_zip_file 2 1 [1, 2, 3, 4, 5], p.2.length ≤ 2) ∧
      ((split_and_zip_file 2 1 [1, 2, 3, 4, 5]).map fun p => p.2.length).sum =
        [1, 2, 3, 4, 5].length) :=
  ⟨by decide, by decide, by decide,
    split_and_zip_roundtrip 2 1 [1, 2, 3, 4, 5] (by decide) (by decide) (by decide)⟩

/-- C3 (counterexample): a 4-byte file at capacity 2 (buffer 1) is split
into parts of lengths 2, 2, 0 — the final emitted part is empty, so the
final part's length is not strictly greater than 0 even though the file is
strictly larger than the capacity. -/
theorem split_final_part_zero_cex :
    (split_and_zip_file 2 1 (List.replicate 4 0)).map (fun p => (p.1, p.2.length)) =
      [(1, 2), (2, 2), (3, 0)] ∧
    ((split_and_zip_file 2 1 (List.replicate 4 0)).map fun p => p.2.length).getLast? =
      some 0 ∧
    2 < (List.replicate 4 (0 : Nat)).length :=
  ⟨by decide, by decide, by decide⟩

/-- C3 (amended): for a file strictly larger than a positive capacity
(with positive buffer), the emitted parts carry 1-based contiguous
indices, every part holds at most `cap` bytes, and the final part's length
is `fileSize % cap` — strictly positive exactly when the capacity does not
divide the file size (a zero-length final part is emitted when it does);
one 120-byte file at capacity 50 yields exactly 3 parts of lengths
50, 50, 20. -/
theorem split_parts_indexed_lengths (cap buf : Nat) (src : List Nat)
    (hcap : 0 < cap) (hbuf : 0 < buf) (hsize : cap < src.length) :
    (split_and_zip_file cap buf src).map Prod.fst =
      List.range' 1 (src.length / cap + 1) ∧
    (∀ p ∈ split_and_zip_file cap buf src, p.2.length ≤ cap) ∧
    ((split_and_zip_file cap buf src).map fun p => p.2.length).getLast? =
      some (src.length % cap) ∧
    (split_and_zip_file 50 64 (List.replicate 120 0)).map (fun p => (p.1, p.2.length)) =
      [(1, 50), (2, 50), (3, 20)] := by
  obtain ⟨h1, h2, h3⟩ := split_and_zip_file_spec cap buf src hcap hbuf
  refine ⟨h3, split_parts_le_cap cap buf src hcap hbuf, ?_, by decide⟩
  rw [h2]
  exact List.getLast?_concat _

/-- Witness for C3 (amended): a 3-byte file at capacity 2 with buffer 3
yields parts indexed 1, 2 with final length 3 % 2 = 1. -/
theorem split_parts_indexed_lengths_witness :
    0 < 2 ∧ 0 < 3 ∧ 2 < [7, 7, 7].length ∧
    ((split_and_zip_file 2 3 [7, 7, 7]).map Prod.fst =
        List.range' 1 ([7, 7, 7].length / 2 + 1) ∧
      (∀ p ∈ split_and_zip_file 2 3 [7, 7, 7], p.2.length ≤ 2) ∧
      ((split_and_zip_file 2 3 [7, 7, 7]).map fun p => p.2.length).getLast? =
        some ([7, 7, 7].length % 2) ∧
      (split_and_zip_file 50 64 (List.replicate 120 0)).map (fun p => (p.1, p.2.length)) =
        [(1, 50), (2, 50), (3, 20)]) :=
  ⟨by decide, by decide, by decide,
    split_parts_indexed_lengths 2 3 [7, 7, 7] (by decide) (by decide) (by decide)⟩

/-- C4 (counterexample): `split.py` copies each file into the current part
folder under its basename only.  A file with relative path `sub/f` is
written as `f` directly inside `part_1`, so its relative path (with its
subdirectory) appears zero times among the outputs; and two files `a/x`
and `b/x` are both written to the same destination `part_1/x`, so the
second copy overwrites the first. -/
theorem splitpy_flattens_relpath_cex :
    splitPyOutputs [⟨"/lambda-layer/sub/f", ["sub", "f"], 10⟩] 50 = [(1, ["f"])] ∧
    (∀ o ∈ splitPyOutputs [⟨"/lambda-layer/sub/f", ["sub", "f"], 10⟩] 50,
      o.2 ≠ ["sub", "f"]) ∧
    splitPyOutputs [⟨"/lambda-layer/a/x", ["a", "x"], 10⟩,
        ⟨"/lambda-layer/b/x", ["b", "x"], 10⟩] 50 =
      [(1, ["x"]), (1, ["x"])] :=
  ⟨by decide, by decide, by decide⟩

/-- C4 (amended): in `main.py`, the packed chunks concatenate back to the
input catalog exactly — no file is dropped or duplicated — and the
materialized output entries carry, in catalog order, exactly the input
files' relative paths, preserved verbatim under the `python{n}` unit
folders. -/
theorem main_outputs_preserve_relpaths (files : List FileEntry) (maxSize : Nat) :
    (split_files_by_size files maxSize).flatten = files ∧
    (mainOutputs files maxSize).map Prod.snd = files.map FileEntry.relPath := by
  obtain ⟨-, hflat⟩ := split_files_by_size_spec files maxSize
  refine ⟨hflat, ?_⟩
  rw [mainOutputs, mainOutputsAux_snd (split_files_by_size files maxSize) 1, hflat]

/-- C5: `_process_file` routes a file to the splitter exactly when its
size strictly exceeds `max_part_size`; a file with size at most the
capacity (including exactly equal) is copied whole, verbatim, and no
split part is produced for it. -/
theorem process_file_split_iff (cap buf : Nat) (rel : List String) (content : List Nat) :
    (content.length ≤ cap → process_file cap buf rel content =
      [SplitterOutput.whole rel content]) ∧
    ((∃ o ∈ process_file cap buf rel content, ∃ i c, o = SplitterOutput.part rel i c) ↔
      cap < content.length) := by
  constructor
  · intro h
    simp [process_file, if_pos h]
  · constructor
    · rintro ⟨o, ho, i, c, heq⟩
      by_contra hnot
      push_neg at hnot
      simp only [process_file, if_pos hnot] at ho
      rw [List.mem_singleton.mp ho] at heq
      exact SplitterOutput.noConfusion heq
    · intro h
      have hne := split_and_zip_file_ne_nil cap buf content
      have hnle : ¬ content.length ≤ cap := by omega
      rcases hsz : split_and_zip_file cap buf content with _ | ⟨p, rest⟩
      · exact absurd hsz hne
      · refine ⟨SplitterOutput.part rel p.1 p.2, ?_, p.1, p.2, rfl⟩
        simp only [process_file, if_neg hnle]
        rw [hsz]
        exact List.mem_map_of_mem _ (List.mem_cons_self p rest)

/-- Witness for C5: a 2-byte file at capacity exactly 2 is copied whole
and never routed to the splitter. -/
theorem process_file_split_iff_witness :
    process_file 2 1 ["x"] [9, 9] = [SplitterOutput.whole ["x"] [9, 9]] :=
  (process_file_split_iff 2 1 ["x"] [9, 9]).1 (by decide)

/-- C6: when adding a file makes the current bin's running total exactly
equal to the capacity, `packStep` appends the file to the current bin
without sealing it (the comparison is strict `>`); packing files of sizes
10, 20, 25 at capacity 30 yields exactly the bins [10, 20] and [25]. -/
theorem pack_step_exact_fit (maxSize : Nat) (st : PackState) (f : FileEntry)
    (h : st.currentSum + f.size = maxSize) :
    packStep maxSize st f = ⟨st.chunks, st.current ++ [f], maxSize⟩ ∧
    split_files_by_size
        [⟨"/lambda-layer/a", ["a"], 10⟩, ⟨"/lambda-layer/b", ["b"], 20⟩,
          ⟨"/lambda-layer/c", ["c"], 25⟩] 30 =
      [[⟨"/lambda-layer/a", ["a"], 10⟩, ⟨"/lambda-layer/b", ["b"], 20⟩],
        [⟨"/lambda-layer/c", ["c"], 25⟩]] := by
  refine ⟨?_, by decide⟩
  unfold packStep
  rw [if_neg (by rintro ⟨h1, h2⟩; omega), h]

/-- Witness for C6: a bin holding 10 bytes receives a 20-byte file at
capacity 30 and keeps it in the same bin with total exactly 30. -/
theorem pack_step_exact_fit_witness :
    ((⟨[], [⟨"/lambda-layer/a", ["a"], 10⟩], 10⟩ : PackState).currentSum +
        (⟨"/lambda-layer/b", ["b"], 20⟩ : FileEntry).size = 30) ∧
    (packStep 30 ⟨[], [⟨"/lambda-layer/a", ["a"], 10⟩], 10⟩ ⟨"/lambda-layer/b", ["b"], 20⟩ =
        ⟨(⟨[], [⟨"/lambda-layer/a", ["a"], 10⟩], 10⟩ : PackState).chunks,
          (⟨[], [⟨"/lambda-layer/a", ["a"], 10⟩], 10⟩ : PackState).current ++
            [⟨"/lambda-layer/b", ["b"], 20⟩], 30⟩ ∧
      split_files_by_size
          [⟨"/lambda-layer/a", ["a"], 10⟩, ⟨"/lambda-layer/b", ["b"], 20⟩,
            ⟨"/lambda-layer/c", ["c"], 25⟩] 30 =
        [[⟨"/lambda-layer/a", ["a"], 10⟩, ⟨"/lambda-layer/b", ["b"], 20⟩],
          [⟨"/lambda-layer/c", ["c"], 25⟩]]) :=
  ⟨by decide, pack_step_exact_fit 30 ⟨[], [⟨"/lambda-layer/a", ["a"], 10⟩], 10⟩
      ⟨"/lambda-layer/b", ["b"], 20⟩ (by decide)⟩

/-- C7: a run of `splitter.py` with non-positive `max_part_size` (and a
valid source directory) fails with the invalid-capacity error during
construction, before any packing or output: no output unit is produced. -/
theorem splitter_run_invalid_capacity (maxPartSize : Int) (bufferSize : Nat)
    (files : List (List String × List Nat)) (hcap : maxPartSize ≤ 0) :
    lambdaLayerSplitterRun true true maxPartSize bufferSize files =
      Except.error SplitterError.invalidCapacity := by
  unfold lambdaLayerSplitterRun splitterCtor validate_inputs
  rw [if_neg (by simp), if_neg (by simp), if_pos hcap]

/-- Witness for C7: capacity 0 on a non-empty catalog yields the
invalid-capacity error and no outputs. -/
theorem splitter_run_invalid_capacity_witness :
    (0 : Int) ≤ 0 ∧
    lambdaLayerSplitterRun true true 0 1 [(["a"], [1, 2, 3])] =
      Except.error SplitterError.invalidCapacity :=
  ⟨by decide, splitter_run_invalid_capacity 0 1 [(["a"], [1, 2, 3])] (by decide)⟩

/-- C8 (counterexample): `split.py` creates the `part_1` folder before
scanning any file, so an empty catalog still leaves one (empty) part
folder — not zero part folders. -/
theorem splitpy_empty_catalog_folder_cex :
    (splitPyRun [] 50).folders = [[]] ∧
    (splitPyRun [] 50).folders.length = 1 ∧
    (splitPyRun [] 50).folders ≠ [] :=
  ⟨rfl, rfl, by decide⟩

/-- C8 (amended): an empty catalog is a successful no-op for `main.py`
(zero bins, zero output units) and for `splitter.py` (ok with zero
outputs for any positive capacity); `split.py`, however, still creates
one empty `part_1` folder up front. -/
theorem empty_catalog_no_op (maxSize : Nat) :
    split_files_by_size [] maxSize = [] ∧
    mainRun [] maxSize = [] ∧
    (∀ (capI : Int) (buf : Nat), 0 < capI →
      lambdaLayerSplitterRun true true capI buf [] = Except.ok []) ∧
    (splitPyRun [] maxSize).folders = [[]] ∧
    (splitPyRun [] maxSize).partNum = 1 := by
  refine ⟨rfl, rfl, ?_, rfl, rfl⟩
  intro capI buf h
  unfold lambdaLayerSplitterRun splitterCtor validate_inputs
  rw [if_neg (by simp), if_neg (by simp), if_neg (by omega)]
  rfl

/-- Witness for C8 (amended): `splitter.py` at capacity 5 on an empty
catalog returns ok with no outputs. -/
theorem empty_catalog_no_op_witness :
    (0 : Int) < 5 ∧ lambdaLayerSplitterRun true true 5 1 [] = Except.ok [] :=
  ⟨by decide, (empty_catalog_no_op 50).2.2.1 5 1 (by decide)⟩

/-- C9 (counterexample): in `split.py`, a single 60-byte file at capacity
50 triggers the new-part condition while `part_1` is still empty, so the
run emits two part folders, the first of which is empty. -/
theorem splitpy_empty_part_folder_cex :
    (splitPyRun [⟨"/lambda-layer/big", ["big"], 60⟩] 50).folders = [[], [["big"]]] ∧
    [] ∈ (splitPyRun [⟨"/lambda-layer/big", ["big"], 60⟩] 50).folders :=
  ⟨by decide, by decide⟩

/-- C9 (amended): in `main.py`'s packer, the current bin is sealed exactly
when it is non-empty and adding the incoming file would exceed the
capacity, so every emitted bin contains at least one file; `split.py`'s
variant starts a new part folder whenever the size check trips regardless
of whether the current folder is empty, retaining the possibly-empty
previous folder. -/
theorem bins_nonempty_sealed (files : List FileEntry) (maxSize : Nat) :
    (∀ c ∈ split_files_by_size files maxSize, c ≠ []) ∧
    (∀ (st : PackState) (f : FileEntry),
      ¬ (st.current ≠ [] ∧ maxSize < st.currentSum + f.size) →
      (packStep maxSize st f).chunks = st.chunks) ∧
    (∀ (st : PackState) (f : FileEntry), st.current ≠ [] →
      maxSize < st.currentSum + f.size →
      packStep maxSize st f = ⟨st.chunks ++ [st.current], [f], f.size⟩) ∧
    (∀ (st : SplitPyState) (f : FileEntry), maxSize < st.currentSize + f.size →
      (splitPyStep maxSize st f).folders = st.folders ++ [[copy2Dest f]]) := by
  refine ⟨fun c hc => ((split_files_by_size_spec files maxSize).1 c hc).2, ?_, ?_, ?_⟩
  · intro st f hc
    simp [packStep, if_neg hc]
  · intro st f h1 h2
    simp [packStep, if_pos (And.intro h1 h2)]
  · intro st f h
    show (splitPyStep maxSize st f).folders = st.folders ++ [[copy2Dest f]]
    unfold splitPyStep
    rw [if_pos h]
    show appendToLast (st.folders ++ [[]]) (copy2Dest f) = st.folders ++ [[copy2Dest f]]
    rw [appendToLast_concat st.folders [] (copy2Dest f)]
    simp

/-- Witness for C9 (amended): sealing at capacity 50 when the open bin
holds 10 bytes and a 45-byte file arrives. -/
theorem bins_nonempty_sealed_witness :
    packStep 50 ⟨[], [⟨"/lambda-layer/a", ["a"], 10⟩], 10⟩ ⟨"/lambda-layer/b", ["b"], 45⟩ =
      ⟨(⟨[], [⟨"/lambda-layer/a", ["a"], 10⟩], 10⟩ : PackState).chunks ++
          [(⟨[], [⟨"/lambda-layer/a", ["a"], 10⟩], 10⟩ : PackState).current],
        [⟨"/lambda-layer/b", ["b"], 45⟩],
        (⟨"/lambda-layer/b", ["b"], 45⟩ : FileEntry).size⟩ :=
  (bins_nonempty_sealed [] 50).2.2.1 ⟨[], [⟨"/lambda-layer/a", ["a"], 10⟩], 10⟩
    ⟨"/lambda-layer/b", ["b"], 45⟩ (by decide) (by decide)

/-- C10: the `LambdaLayerSplitter` constructor validates the source and
`max_part_size` but never `buffer_size` (its result does not depend on the
buffer, and buffer 0 passes validation), and with `buffer_size = 0` the
first read of `_write_chunk` requests 0 bytes and returns immediately, so
splitting any file strictly larger than the capacity emits exactly one
zero-byte part and writes none of the file's bytes, with no error. -/
theorem buffer_zero_single_empty_part (cap : Nat) (src : List Nat)
    (hcap : 0 < cap) (hsize : cap < src.length) :
    (∀ (se sd : Bool) (m : Int) (b1 b2 : Nat),
      splitterCtor se sd m b1 = splitterCtor se sd m b2) ∧
    splitterCtor true true 1 0 = Except.ok () ∧
    write_chunk cap 0 src = ([], src) ∧
    split_and_zip_file cap 0 src = [(1, [])] := by
  have hwc : write_chunk cap 0 src = ([], src) := by
    unfold write_chunk
    cases cap with
    | zero => omega
    | succ c =>
      unfold writeChunkAux
      rw [if_pos (by omega)]
      simp
  refine ⟨fun se sd m b1 b2 => rfl, rfl, hwc, ?_⟩
  unfold split_and_zip_file splitLoopFuel
  simp [hwc, hcap]

/-- Witness for C10: splitting a 3-byte file at capacity 2 with buffer 0
produces a single empty part. -/
theorem buffer_zero_single_empty_part_witness :
    0 < 2 ∧ 2 < [5, 6, 7].length ∧ split_and_zip_file 2 0 [5, 6, 7] = [(1, [])] :=
  ⟨by decide, by decide,
    (buffer_zero_single_empty_part 2 [5, 6, 7] (by decide) (by decide)).2.2.2⟩
